import Mathlib

/-!
Verification of the core timetable logic of the CLASS-KAHA-HAI bot
(`bot_core.py`): the slot clock, the current/next class resolver, the
reminder scheduler, the user/group and known-chat state handlers, and the
admin broadcast fan-out.

Modelling conventions:
* A `datetime` value is modelled as a `DateTime`: an absolute day index
  `day` (counted from a Monday epoch, so `weekday = day % 7`, matching
  Python's `date.weekday()`) together with `tod`, the minutes elapsed
  since local midnight.  All wall-clock times in the source live in one
  fixed timezone, so comparisons between aware datetimes are exactly the
  lexicographic order on `(day, tod)`.
* `datetime.time` values become minutes since midnight (`09:30 = 570`).
* Python `Optional` becomes `Option`; a `dict.get` miss becomes `none`;
  an unchecked `dict[key]` / `list[i]` access that can raise is modelled
  with `Option`/`Except` so that the raising path is visible.
-/

/-- Minutes-since-midnight model of an IST wall-clock instant:
absolute day index (Monday epoch) plus minute of day. -/
structure DateTime where
  day : Nat
  tod : Nat
deriving DecidableEq, Repr

/-- `a <= b` on timezone-aware datetimes: lexicographic on (day, minute). -/
def DateTime.le (a b : DateTime) : Prop :=
  a.day < b.day ∨ (a.day = b.day ∧ a.tod ≤ b.tod)

/-- `a < b` on timezone-aware datetimes: lexicographic on (day, minute). -/
def DateTime.lt (a b : DateTime) : Prop :=
  a.day < b.day ∨ (a.day = b.day ∧ a.tod < b.tod)

instance (a b : DateTime) : Decidable (DateTime.le a b) := by
  unfold DateTime.le; exact inferInstance

instance (a b : DateTime) : Decidable (DateTime.lt a b) := by
  unfold DateTime.lt; exact inferInstance

/-- The canonical 1-hour slots (`SLOTS` in `bot_core.py`), as
(start, end) minute pairs: 09:30–13:30 in four slots, then 14:30–17:30
in three slots after the lunch gap. -/
def SLOTS : List (Nat × Nat) :=
  [(570, 630), (630, 690), (690, 750), (750, 810),
   (870, 930), (930, 990), (990, 1050)]

/-- `ClassEntry` dataclass of `bot_core.py`. -/
structure ClassEntry where
  subject : String
  room : String
  teacher : Option String := none
deriving DecidableEq, Repr

/-- Shorthand for the two-argument `ClassEntry(subject, room)` constructor
calls used in the `SCHEDULE` literal (teacher defaults to `None`). -/
def CE (s r : String) : ClassEntry := ⟨s, r, none⟩

/-- Monday column of `SCHEDULE`. -/
def MON : List (Option ClassEntry) :=
  [some (CE "DMDW" "BS-102"), some (CE "OS" "BS-102"),
   some (CE "AIML" "BS-102"), some (CE "WT" "BS-102"),
   some (CE "DMDW LAB" "MBA Gallary"), some (CE "DMDW LAB" "MBA Gallary"),
   some (CE "DMDW LAB" "MBA Gallary")]

/-- Tuesday column of `SCHEDULE`. -/
def TUE : List (Option ClassEntry) :=
  [some (CE "OS" "BS-104"), some (CE "WT LAB" "BS-104"),
   some (CE "WT LAB" "BS-104"), some (CE "WT LAB" "BS-104"),
   some (CE "DMDW" "CS-201"), some (CE "AIML" "CS-201"),
   some (CE "AIML" "CS-201")]

/-- Wednesday column of `SCHEDULE` (slot 3 is free). -/
def WED : List (Option ClassEntry) :=
  [some (CE "SDE" "Chutti"), some (CE "SDE" "Chutti"),
   some (CE "SDE" "Chutti"), none,
   some (CE "CDT" "Chutti"), some (CE "CDT" "Chutti"),
   some (CE "CDT" "Chutti")]

/-- Thursday column of `SCHEDULE`. -/
def THU : List (Option ClassEntry) :=
  [some (CE "WT" "Oracle Lab"), some (CE "AIML LAB" "Oracle Lab"),
   some (CE "AIML LAB" "Oracle Lab"), some (CE "AIML LAB" "Oracle Lab"),
   some (CE "DMDW" "BS-403"), some (CE "AIML" "BS-403"),
   some (CE "OS" "BS-403")]

/-- Friday column of `SCHEDULE`. -/
def FRI : List (Option ClassEntry) :=
  [some (CE "DMDW" "CS-201"), some (CE "OS" "CS-201"),
   some (CE "WT" "CS-201"), some (CE "WT" "CS-201"),
   some (CE "OS LAB" "MECH DC"), some (CE "OS LAB" "MECH DC"),
   some (CE "OS LAB" "MECH DC")]

/-- Saturday column of `SCHEDULE`: co-curricular only, all free. -/
def SAT : List (Option ClassEntry) := [none, none, none, none, none, none, none]

/-- Sunday column of `SCHEDULE`: closed, all free. -/
def SUN : List (Option ClassEntry) := [none, none, none, none, none, none, none]

/-- The per-weekday columns of the `SCHEDULE` dict, Monday first. -/
def SCHEDULE_DAYS : List (List (Option ClassEntry)) :=
  [MON, TUE, WED, THU, FRI, SAT, SUN]

/-- The `SCHEDULE` dict of `bot_core.py`: weekday index 0..6 to the
day's seven slot occupants. -/
def SCHEDULE (d : Fin 7) : List (Option ClassEntry) :=
  SCHEDULE_DAYS.getD d.val []

/-- `SUPPORTED_GROUPS = {"Group-7": SCHEDULE}`, as a `.get`-style lookup. -/
def SUPPORTED_GROUPS (g : String) : Option (Fin 7 → List (Option ClassEntry)) :=
  if g = "Group-7" then some SCHEDULE else none

/-- `list(SUPPORTED_GROUPS.keys())`. -/
def SUPPORTED_GROUPS_keys : List String := ["Group-7"]

/-- Weekday of an absolute day index (Monday epoch): `day % 7`. -/
def weekdayOf (d : Nat) : Fin 7 := ⟨d % 7, Nat.mod_lt _ (by decide)⟩

/-- The `for i, (start, end) in enumerate(SLOTS)` loop body of
`slot_index_for`: first slot whose half-open interval contains `tod`. -/
def slotScan (tod : Nat) : List (Nat × Nat) → Nat → Option Nat
  | [], _ => none
  | (s, e) :: rest, i =>
    if s ≤ tod ∧ tod < e then some i else slotScan tod rest (i + 1)

/-- `slot_index_for(now)`: index of the slot containing `now`, else none. -/
def slot_index_for (now : DateTime) : Option Nat :=
  slotScan now.tod SLOTS 0

/-- `current_class(group, now)` from `bot_core.py`. -/
def current_class (group : String) (now : DateTime) : Option ClassEntry :=
  match slot_index_for now with
  | none => none
  | some idx =>
    match SUPPORTED_GROUPS group with
    | none => none
    | some schedule => (schedule (weekdayOf now.day)).getD idx none

/-- Inner `for i in range(len(SLOTS))` loop of `next_class`: scan the
slots of the day `dshift` days ahead, skipping (on day 0) slots whose
start is not strictly after `now`, and return the first non-empty one. -/
def nextClassDay (schedList : List (Option ClassEntry)) (now : DateTime)
    (dshift : Nat) : List (Nat × Nat) → Nat → Option (DateTime × ClassEntry)
  | [], _ => none
  | (s, _) :: rest, i =>
    let start_dt : DateTime := ⟨now.day + dshift, s⟩
    if dshift = 0 ∧ DateTime.le start_dt now then
      nextClassDay schedList now dshift rest (i + 1)
    else
      match schedList.getD i none with
      | some entry => some (start_dt, entry)
      | none => nextClassDay schedList now dshift rest (i + 1)

/-- Outer `for dshift in range(0, 7)` loop of `next_class`, with the
remaining iteration count made explicit as `fuel`. -/
def nextClassLoop (sched : Fin 7 → List (Option ClassEntry)) (now : DateTime) :
    Nat → Nat → Option (DateTime × ClassEntry)
  | _, 0 => none
  | dshift, fuel + 1 =>
    match nextClassDay (sched (weekdayOf (now.day + dshift))) now dshift SLOTS 0 with
    | some r => some r
    | none => nextClassLoop sched now (dshift + 1) fuel

/-- `next_class(group, now)` from `bot_core.py`. -/
def next_class (group : String) (now : DateTime) : Option (DateTime × ClassEntry) :=
  match SUPPORTED_GROUPS group with
  | none => none
  | some sched => nextClassLoop sched now 0 7

/-- Collecting variant of `nextClassDay`: all the results the scan over
one day would be willing to return, in scan order. -/
def candDay (schedList : List (Option ClassEntry)) (now : DateTime)
    (dshift : Nat) : List (Nat × Nat) → Nat → List (DateTime × ClassEntry)
  | [], _ => []
  | (s, _) :: rest, i =>
    let start_dt : DateTime := ⟨now.day + dshift, s⟩
    if dshift = 0 ∧ DateTime.le start_dt now then
      candDay schedList now dshift rest (i + 1)
    else
      match schedList.getD i none with
      | some entry => (start_dt, entry) :: candDay schedList now dshift rest (i + 1)
      | none => candDay schedList now dshift rest (i + 1)

/-- Collecting variant of `nextClassLoop`: all candidate results of the
whole 7-day scan, in scan order. -/
def candLoop (sched : Fin 7 → List (Option ClassEntry)) (now : DateTime) :
    Nat → Nat → List (DateTime × ClassEntry)
  | _, 0 => []
  | dshift, fuel + 1 =>
    candDay (sched (weekdayOf (now.day + dshift))) now dshift SLOTS 0
      ++ candLoop sched now (dshift + 1) fuel

/-- Start instant of the slot `i` of the day `d` days after `now`'s day:
the `start_dt` value `next_class` builds for loop indices `(d, i)`. -/
def startOf (now : DateTime) (d i : Nat) : DateTime :=
  ⟨now.day + d, (SLOTS.getD i (0, 0)).1⟩

/-- The `(dshift, slot)` pairs the `next_class` scan is willing to
return: within the 7-day window, a non-empty schedule cell, and, on the
current day, a start strictly after `now`. -/
def IsCand (sched : Fin 7 → List (Option ClassEntry)) (now : DateTime)
    (d i : Nat) (e : ClassEntry) : Prop :=
  d < 7 ∧ i < 7 ∧
    (sched (weekdayOf (now.day + d))).getD i none = some e ∧
    (d = 0 → DateTime.lt now (startOf now d i))

/-- Dict write `m[k] = v` on an association-list model of `USER_GROUP`. -/
def updateAssoc : List (Nat × String) → Nat → String → List (Nat × String)
  | [], k, v => [(k, v)]
  | (k2, v2) :: rest, k, v =>
    if k2 = k then (k2, v) :: rest else (k2, v2) :: updateAssoc rest k v

/-- Dict read `m.get(k)` on the association-list model. -/
def lookupAssoc : List (Nat × String) → Nat → Option String
  | [], _ => none
  | (k2, v2) :: rest, k => if k2 = k then some v2 else lookupAssoc rest k

/-- The process-wide mutable state of `bot_core.py`: the `USER_GROUP`
dict and the `KNOWN_CHATS` set (as a duplicate-free insertion list). -/
structure BotState where
  user_group : List (Nat × String)
  known_chats : List Nat
deriving DecidableEq, Repr

/-- `_remember_chat`: `KNOWN_CHATS.add(chat_id)`. -/
def rememberChat (chat : Nat) (st : BotState) : BotState :=
  { st with
    known_chats :=
      if chat ∈ st.known_chats then st.known_chats
      else st.known_chats ++ [chat] }

/-- `start`: remember the chat, then register a first-time user under
the literal default group `"Group-7"`. -/
def start (uid chat : Nat) (st : BotState) : BotState :=
  let st2 := rememberChat chat st
  if (lookupAssoc st2.user_group uid).isNone then
    { st2 with user_group := updateAssoc st2.user_group uid "Group-7" }
  else st2

/-- The three replies `setgroup` can send. -/
inductive SetgroupReply where
  | usage : SetgroupReply
  | unknownGroup (g : String) (supported : List String) : SetgroupReply
  | updated (g : String) : SetgroupReply
deriving DecidableEq, Repr

/-- `setgroup`: remember the chat; on empty args reply usage; on a group
name missing from `SUPPORTED_GROUPS` reply a rejection naming the
supported groups without touching `USER_GROUP`; else record the group. -/
def setgroup (uid chat : Nat) (args : List String) (st : BotState) :
    BotState × SetgroupReply :=
  let st2 := rememberChat chat st
  if args.isEmpty then (st2, .usage)
  else
    let group := String.intercalate " " args
    if (SUPPORTED_GROUPS group).isNone then
      (st2, .unknownGroup group SUPPORTED_GROUPS_keys)
    else
      ({ st2 with user_group := updateAssoc st2.user_group uid group },
        .updated group)

/-- The three replies `announce` can send. -/
inductive AnnounceReply where
  | notAllowed : AnnounceReply
  | usage : AnnounceReply
  | sentReport (n : Nat) : AnnounceReply
deriving DecidableEq, Repr

/-- `ADMIN_IDS`. -/
def ADMIN_IDS : List Nat := [1255061320]

/-- The `for chat_id in list(KNOWN_CHATS)` try/except loop of
`announce`: every chat is attempted in turn; a failed send (modelled by
`sendOk chat = false`) is swallowed and simply not counted.  Returns
the attempted chats and the number of successful sends. -/
def announceFanout (chats : List Nat) (sendOk : Nat → Bool) : List Nat × Nat :=
  chats.foldl
    (fun acc c => (acc.1 ++ [c], if sendOk c then acc.2 + 1 else acc.2))
    ([], 0)

/-- `announce`: admin gate, usage gate, then the broadcast fan-out over
all known chats with the per-send success signal `sendOk`. -/
def announce (uid chat : Nat) (args : List String) (sendOk : Nat → Bool)
    (st : BotState) : BotState × AnnounceReply :=
  let st2 := rememberChat chat st
  if uid ∈ ADMIN_IDS then
    if args.isEmpty then (st2, .usage)
    else (st2, .sentReport (announceFanout st2.known_chats sendOk).2)
  else (st2, .notAllowed)

/-- The two replies `subscribe` can send. -/
inductive SubscribeReply where
  | subscribed (n : Nat) : SubscribeReply
  | noRemaining : SubscribeReply
deriving DecidableEq, Repr

/-- The `for i, (start, _end) in enumerate(SLOTS)` loop of `subscribe`:
skip slots not strictly in the future, look the group up by unchecked
dict indexing (`none` = the `KeyError` path), skip empty cells, skip
reminders whose fire time `slot start - 10 min` is not strictly in the
future, and collect the remaining `(remind_at, entry)` one-shot jobs. -/
def subscribeLoop (group : String) (now : DateTime) (day : Fin 7) :
    List (Nat × Nat) → Nat → Option (List (DateTime × ClassEntry))
  | [], _ => some []
  | (s, _) :: rest, i =>
    let slot_time : DateTime := ⟨now.day, s⟩
    if DateTime.le slot_time now then subscribeLoop group now day rest (i + 1)
    else
      match SUPPORTED_GROUPS group with
      | none => none
      | some schedule =>
        match (schedule day).getD i none with
        | none => subscribeLoop group now day rest (i + 1)
        | some entry =>
          let remind_at : DateTime := ⟨now.day, s - 10⟩
          if DateTime.le remind_at now then subscribeLoop group now day rest (i + 1)
          else
            match subscribeLoop group now day rest (i + 1) with
            | none => none
            | some tail => some ((remind_at, entry) :: tail)

/-- The reminders `subscribe(group, now)` schedules for today, or none
for the unhandled `KeyError` path on an unregistered group. -/
def subscribe_sched (group : String) (now : DateTime) :
    Option (List (DateTime × ClassEntry)) :=
  subscribeLoop group now (weekdayOf now.day) SLOTS 0

/-- The reply `subscribe` sends: the job count when positive, else the
distinct no-remaining-classes message. -/
def subscribe_reply (group : String) (now : DateTime) : Option SubscribeReply :=
  match subscribe_sched group now with
  | none => none
  | some l => some (if l.length = 0 then .noRemaining else .subscribed l.length)

/-- Python list indexing `l[i]`: the raising path is an explicit error. -/
def pyListGet (l : List (Option ClassEntry)) (i : Nat) :
    Except String (Option ClassEntry) :=
  if h : i < l.length then Except.ok (l.get ⟨i, h⟩)
  else Except.error "IndexError"

/-- The per-slot access pattern of `day_schedule`: for each of the 7
canonical slots, index today's entry list — the operation that would
raise `IndexError` per-request if a day's list were not 7 long. -/
def renderDay (daySlots : List (Option ClassEntry)) :
    Except String (List (Option ClassEntry)) :=
  (List.range SLOTS.length).mapM (fun i => pyListGet daySlots i)

/-- `day_schedule`'s unchecked `SUPPORTED_GROUPS[group]` access followed
by its per-slot reads; `none` is the `KeyError` path. -/
def day_schedule_entries (group : String) (day : Fin 7) :
    Option (List (Option ClassEntry)) :=
  match SUPPORTED_GROUPS group with
  | none => none
  | some sched =>
    some ((List.range SLOTS.length).map (fun i => (sched day).getD i none))

/-- The `USER_GROUP` invariant: every stored value is a registered
group name. -/
def GroupInv (st : BotState) : Prop :=
  ∀ uid g, lookupAssoc st.user_group uid = some g →
    (SUPPORTED_GROUPS g).isSome = true

/-- The jobs `subscribe`'s loop collects, for a registered group, as a
pure list (the `Option` wrapper of `subscribeLoop` stripped). -/
def subscribePure (sched : Fin 7 → List (Option ClassEntry)) (now : DateTime)
    (day : Fin 7) : List (Nat × Nat) → Nat → List (DateTime × ClassEntry)
  | [], _ => []
  | (s, _) :: rest, i =>
    if DateTime.le ⟨now.day, s⟩ now then subscribePure sched now day rest (i + 1)
    else
      match (sched day).getD i none with
      | none => subscribePure sched now day rest (i + 1)
      | some entry =>
        if DateTime.le ⟨now.day, s - 10⟩ now then
          subscribePure sched now day rest (i + 1)
        else (⟨now.day, s - 10⟩, entry) :: subscribePure sched now day rest (i + 1)

instance {e a : Type} [DecidableEq e] [DecidableEq a] :
    DecidableEq (Except e a) := fun x y =>
  match x, y with
  | Except.error e1, Except.error e2 => decidable_of_iff (e1 = e2) (by simp)
  | Except.error _, Except.ok _ => isFalse (by simp)
  | Except.ok _, Except.error _ => isFalse (by simp)
  | Except.ok x1, Except.ok y1 => decidable_of_iff (x1 = y1) (by simp)

theorem DateTime.not_le {a b : DateTime} : ¬ DateTime.le a b ↔ DateTime.lt b a := by
  unfold DateTime.le DateTime.lt
  omega

theorem DateTime.lt_trans {a b c : DateTime} (h1 : DateTime.lt a b)
    (h2 : DateTime.lt b c) : DateTime.lt a c := by
  unfold DateTime.lt at *
  omega

theorem nextClassDay_eq_head (schedList : List (Option ClassEntry))
    (now : DateTime) (dshift : Nat) :
    ∀ (slots : List (Nat × Nat)) (i : Nat),
      nextClassDay schedList now dshift slots i
        = (candDay schedList now dshift slots i).head? := by
  intro slots
  induction slots with
  | nil => intro i; rfl
  | cons p rest ih =>
    intro i
    obtain ⟨s, e⟩ := p
    simp only [nextClassDay, candDay]
    split
    · exact ih (i + 1)
    · cases h : schedList.getD i none with
      | some entry => simp
      | none => simpa using ih (i + 1)

theorem nextClassLoop_eq_head (sched : Fin 7 → List (Option ClassEntry))
    (now : DateTime) :
    ∀ (fuel dshift : Nat),
      nextClassLoop sched now dshift fuel
        = (candLoop sched now dshift fuel).head? := by
  intro fuel
  induction fuel with
  | zero => intro dshift; rfl
  | succ n ih =>
    intro dshift
    simp only [nextClassLoop, candLoop]
    rw [nextClassDay_eq_head]
    cases h : (candDay (sched (weekdayOf (now.day + dshift))) now dshift SLOTS 0).head? with
    | some r =>
      obtain ⟨x, t, hx⟩ : ∃ x t, candDay (sched (weekdayOf (now.day + dshift))) now dshift SLOTS 0 = x :: t := by
        cases hc : candDay (sched (weekdayOf (now.day + dshift))) now dshift SLOTS 0 with
        | nil => rw [hc] at h; simp at h
        | cons a b => exact ⟨a, b, rfl⟩
      rw [hx] at h ⊢
      simpa using h.symm
    | none =>
      obtain hc : candDay (sched (weekdayOf (now.day + dshift))) now dshift SLOTS 0 = [] := by
        cases hc : candDay (sched (weekdayOf (now.day + dshift))) now dshift SLOTS 0 with
        | nil => rfl
        | cons a b => rw [hc] at h; simp at h
      rw [hc]
      simpa using ih (dshift + 1)

theorem candDay_mem (schedList : List (Option ClassEntry)) (now : DateTime)
    (dshift : Nat) :
    ∀ (slots : List (Nat × Nat)) (i0 : Nat) (t : DateTime) (e : ClassEntry),
      (t, e) ∈ candDay schedList now dshift slots i0 ↔
        ∃ j, j < slots.length ∧
          t = ⟨now.day + dshift, (slots.getD j (0, 0)).1⟩ ∧
          ¬(dshift = 0 ∧ DateTime.le t now) ∧
          schedList.getD (i0 + j) none = some e := by
  intro slots
  induction slots with
  | nil => intro i0 t e; simp [candDay]
  | cons p rest ih =>
    intro i0 t e
    obtain ⟨s, e2⟩ := p
    simp only [candDay]
    split
    case isTrue hcond =>
      rw [ih (i0 + 1) t e]
      constructor
      · rintro ⟨j, hj, ht, hc, hg⟩
        refine ⟨j + 1, by simpa using Nat.succ_lt_succ hj, by simpa using ht, hc, ?_⟩
        have harith : i0 + 1 + j = i0 + (j + 1) := by omega
        rw [← harith]; exact hg
      · rintro ⟨j, hj, ht, hc, hg⟩
        cases j with
        | zero =>
          exfalso
          apply hc
          simp only [List.getD_cons_zero] at ht
          rw [ht]
          exact hcond
        | succ j' =>
          refine ⟨j', by simpa using hj, by simpa using ht, hc, ?_⟩
          have harith : i0 + 1 + j' = i0 + (j' + 1) := by omega
          rw [harith]; exact hg
    case isFalse hcond =>
      cases hget : schedList.getD i0 none with
      | some entry =>
        simp only [List.mem_cons, Prod.mk.injEq]
        rw [ih (i0 + 1) t e]
        constructor
        · rintro (⟨ht, he⟩ | ⟨j, hj, ht, hc, hg⟩)
          · refine ⟨0, by simp, by simpa using ht, ?_, by simpa [ht, he] using hget⟩
            rw [ht]; exact hcond
          · refine ⟨j + 1, by simpa using Nat.succ_lt_succ hj, by simpa using ht, hc, ?_⟩
            have harith : i0 + 1 + j = i0 + (j + 1) := by omega
            rw [← harith]; exact hg
        · rintro ⟨j, hj, ht, hc, hg⟩
          cases j with
          | zero =>
            left
            simp only [List.getD_cons_zero] at ht
            simp only [Nat.add_zero] at hg
            rw [hget] at hg
            exact ⟨ht, by simpa using hg.symm⟩
          | succ j' =>
            right
            refine ⟨j', by simpa using hj, by simpa using ht, hc, ?_⟩
            have harith : i0 + 1 + j' = i0 + (j' + 1) := by omega
            rw [harith]; exact hg
      | none =>
        rw [ih (i0 + 1) t e]
        constructor
        · rintro ⟨j, hj, ht, hc, hg⟩
          refine ⟨j + 1, by simpa using Nat.succ_lt_succ hj, by simpa using ht, hc, ?_⟩
          have harith : i0 + 1 + j = i0 + (j + 1) := by omega
          rw [← harith]; exact hg
        · rintro ⟨j, hj, ht, hc, hg⟩
          cases j with
          | zero =>
            exfalso
            simp only [Nat.add_zero] at hg
            rw [hget] at hg
            exact Option.noConfusion hg
          | succ j' =>
            refine ⟨j', by simpa using hj, by simpa using ht, hc, ?_⟩
            have harith : i0 + 1 + j' = i0 + (j' + 1) := by omega
            rw [harith]; exact hg

theorem candLoop_mem (sched : Fin 7 → List (Option ClassEntry)) (now : DateTime) :
    ∀ (fuel d0 : Nat) (t : DateTime) (e : ClassEntry),
      (t, e) ∈ candLoop sched now d0 fuel ↔
        ∃ k, k < fuel ∧
          (t, e) ∈ candDay (sched (weekdayOf (now.day + (d0 + k)))) now (d0 + k) SLOTS 0 := by
  intro fuel
  induction fuel with
  | zero => intro d0 t e; simp [candLoop]
  | succ n ih =>
    intro d0 t e
    simp only [candLoop, List.mem_append]
    rw [ih (d0 + 1) t e]
    constructor
    · rintro (h | ⟨k, hk, h⟩)
      · exact ⟨0, by omega, by simpa using h⟩
      · refine ⟨k + 1, by omega, ?_⟩
        have harith : d0 + 1 + k = d0 + (k + 1) := by omega
        rw [← harith]; exact h
    · rintro ⟨k, hk, h⟩
      cases k with
      | zero => left; simpa using h
      | succ k' =>
        right
        refine ⟨k', by omega, ?_⟩
        have harith : d0 + 1 + k' = d0 + (k' + 1) := by omega
        rw [harith]; exact h

theorem candLoop_mem_iff_isCand (sched : Fin 7 → List (Option ClassEntry))
    (now t : DateTime) (e : ClassEntry) :
    (t, e) ∈ candLoop sched now 0 7 ↔
      ∃ d i, IsCand sched now d i e ∧ t = startOf now d i := by
  rw [candLoop_mem]
  constructor
  · rintro ⟨k, hk, hmem⟩
    rw [candDay_mem] at hmem
    obtain ⟨j, hj, ht, hc, hg⟩ := hmem
    have hj7 : j < 7 := by simpa [SLOTS] using hj
    refine ⟨k, j, ⟨by omega, hj7, by simpa using hg, ?_⟩, by simpa [startOf] using ht⟩
    intro hk0
    rw [DateTime.not_le.symm]
    intro hle
    apply hc
    subst hk0
    exact ⟨rfl, by rw [ht]; simpa [startOf] using hle⟩
  · rintro ⟨d, i, ⟨hd7, hi7, hg, h0⟩, ht⟩
    refine ⟨d, hd7, ?_⟩
    rw [candDay_mem]
    refine ⟨i, by simpa [SLOTS] using hi7, by simpa [startOf] using ht, ?_, by simpa using hg⟩
    rintro ⟨hd0, hle⟩
    have hd0' : d = 0 := by omega
    have hlt := h0 hd0'
    rw [ht] at hle
    rw [← DateTime.not_le] at hlt
    exact hlt hle

theorem candDay_pairwise (schedList : List (Option ClassEntry)) (now : DateTime)
    (dshift : Nat) :
    ∀ (slots : List (Nat × Nat)) (i0 : Nat),
      List.Pairwise (fun p q : Nat × Nat => p.1 < q.1) slots →
      List.Pairwise (fun a b : DateTime × ClassEntry => DateTime.lt a.1 b.1)
        (candDay schedList now dshift slots i0) := by
  intro slots
  induction slots with
  | nil => intro i0 _; simp [candDay]
  | cons p rest ih =>
    intro i0 hp
    obtain ⟨s, e2⟩ := p
    rw [List.pairwise_cons] at hp
    obtain ⟨hhead, hrest⟩ := hp
    simp only [candDay]
    split
    · exact ih (i0 + 1) hrest
    · cases hget : schedList.getD i0 none with
      | some entry =>
        rw [List.pairwise_cons]
        refine ⟨?_, ih (i0 + 1) hrest⟩
        rintro ⟨t, e3⟩ hmem
        rw [candDay_mem] at hmem
        obtain ⟨j, hj, ht, _, _⟩ := hmem
        have hin : rest.getD j (0, 0) ∈ rest := by
          rw [List.getD_eq_getElem _ _ hj]
          exact List.getElem_mem hj
        have hs : s < (rest.getD j (0, 0)).1 := hhead _ hin
        rw [ht]
        exact Or.inr ⟨rfl, hs⟩
      | none => exact ih (i0 + 1) hrest

theorem candDay_day_eq (schedList : List (Option ClassEntry)) (now : DateTime)
    (dshift : Nat) (slots : List (Nat × Nat)) (i0 : Nat) (t : DateTime)
    (e : ClassEntry) (h : (t, e) ∈ candDay schedList now dshift slots i0) :
    t.day = now.day + dshift := by
  rw [candDay_mem] at h
  obtain ⟨j, _, ht, _, _⟩ := h
  rw [ht]

theorem candLoop_pairwise (sched : Fin 7 → List (Option ClassEntry))
    (now : DateTime) :
    ∀ (fuel d0 : Nat),
      List.Pairwise (fun a b : DateTime × ClassEntry => DateTime.lt a.1 b.1)
        (candLoop sched now d0 fuel) := by
  intro fuel
  induction fuel with
  | zero => intro d0; simp [candLoop]
  | succ n ih =>
    intro d0
    simp only [candLoop]
    rw [List.pairwise_append]
    refine ⟨candDay_pairwise _ _ _ _ _ (by decide), ih (d0 + 1), ?_⟩
    rintro ⟨t1, e1⟩ h1 ⟨t2, e2⟩ h2
    have hd1 : t1.day = now.day + d0 := candDay_day_eq _ _ _ _ _ _ _ h1
    rw [candLoop_mem] at h2
    obtain ⟨k, _, h2'⟩ := h2
    have hd2 : t2.day = now.day + (d0 + 1 + k) := candDay_day_eq _ _ _ _ _ _ _ h2'
    show DateTime.lt t1 t2
    exact Or.inl (by omega)

theorem sorted_head_min {α : Type} {R : α → α → Prop} {l : List α} {x : α}
    (hp : List.Pairwise R l) (hx : l.head? = some x) :
    ∀ y ∈ l, x = y ∨ R x y := by
  cases l with
  | nil => simp at hx
  | cons a t =>
    simp only [List.head?_cons, Option.some.injEq] at hx
    subst hx
    intro y hy
    rcases List.mem_cons.1 hy with h | h
    · exact Or.inl h.symm
    · exact Or.inr ((List.pairwise_cons.1 hp).1 y h)

theorem DateTime.le_refl (a : DateTime) : DateTime.le a a :=
  Or.inr ⟨rfl, Nat.le_refl _⟩

theorem DateTime.le_of_lt {a b : DateTime} (h : DateTime.lt a b) :
    DateTime.le a b := by
  unfold DateTime.lt at h
  unfold DateTime.le
  omega

theorem isCand_start_gt (sched : Fin 7 → List (Option ClassEntry))
    (now : DateTime) (d i : Nat) (e : ClassEntry)
    (h : IsCand sched now d i e) : DateTime.lt now (startOf now d i) := by
  obtain ⟨hd7, hi7, hg, h0⟩ := h
  cases d with
  | zero => exact h0 rfl
  | succ n =>
    have hday : (startOf now (n + 1) i).day = now.day + (n + 1) := rfl
    exact Or.inl (by omega)

theorem next_class_some_head {g : String}
    {sched : Fin 7 → List (Option ClassEntry)} {now t : DateTime}
    {e : ClassEntry} (hg : SUPPORTED_GROUPS g = some sched)
    (h : next_class g now = some (t, e)) :
    (candLoop sched now 0 7).head? = some (t, e) := by
  simp only [next_class, hg] at h
  rw [nextClassLoop_eq_head] at h
  exact h

theorem next_class_gt {g : String} {now t : DateTime} {e : ClassEntry}
    (h : next_class g now = some (t, e)) : DateTime.lt now t := by
  cases hg : SUPPORTED_GROUPS g with
  | none =>
    simp only [next_class, hg] at h
    exact absurd h (by simp)
  | some sched =>
    have hmem : (t, e) ∈ candLoop sched now 0 7 :=
      List.mem_of_mem_head? (Option.mem_def.mpr (next_class_some_head hg h))
    rw [candLoop_mem_iff_isCand] at hmem
    obtain ⟨d, i, hc, ht⟩ := hmem
    rw [ht]
    exact isCand_start_gt _ _ _ _ _ hc

theorem next_class_none_iff {g : String}
    {sched : Fin 7 → List (Option ClassEntry)} {now : DateTime}
    (hg : SUPPORTED_GROUPS g = some sched) :
    next_class g now = none ↔ ∀ d i (e : ClassEntry), ¬ IsCand sched now d i e := by
  simp only [next_class, hg]
  rw [nextClassLoop_eq_head]
  constructor
  · intro h d i e hc
    have hempty : candLoop sched now 0 7 = [] := by
      cases hl : candLoop sched now 0 7 with
      | nil => rfl
      | cons a l => rw [hl] at h; simp at h
    have hmem : (startOf now d i, e) ∈ candLoop sched now 0 7 :=
      (candLoop_mem_iff_isCand _ _ _ _).mpr ⟨d, i, hc, rfl⟩
    rw [hempty] at hmem
    simp at hmem
  · intro h
    cases hl : candLoop sched now 0 7 with
    | nil => rfl
    | cons a l =>
      exfalso
      obtain ⟨t, e⟩ := a
      have hmem : (t, e) ∈ candLoop sched now 0 7 := by
        rw [hl]; exact List.mem_cons_self _ _
      rw [candLoop_mem_iff_isCand] at hmem
      obtain ⟨d, i, hc, _⟩ := hmem
      exact h d i e hc

theorem next_class_min {g : String} {sched : Fin 7 → List (Option ClassEntry)}
    {now t : DateTime} {e : ClassEntry} (hg : SUPPORTED_GROUPS g = some sched)
    (h : next_class g now = some (t, e)) :
    ∀ d i (e2 : ClassEntry), IsCand sched now d i e2 →
      DateTime.le t (startOf now d i) := by
  intro d i e2 hc
  have hhead := next_class_some_head hg h
  have hmem2 : (startOf now d i, e2) ∈ candLoop sched now 0 7 :=
    (candLoop_mem_iff_isCand _ _ _ _).mpr ⟨d, i, hc, rfl⟩
  rcases sorted_head_min (candLoop_pairwise sched now 7 0) hhead _ hmem2 with
    heq | hlt
  · have ht : t = startOf now d i := congrArg Prod.fst heq
    rw [ht]
    exact DateTime.le_refl _
  · exact DateTime.le_of_lt hlt

theorem next_class_some_isCand {g : String}
    {sched : Fin 7 → List (Option ClassEntry)} {now t : DateTime}
    {e : ClassEntry} (hg : SUPPORTED_GROUPS g = some sched)
    (h : next_class g now = some (t, e)) :
    ∃ d i, IsCand sched now d i e ∧ t = startOf now d i := by
  have hmem : (t, e) ∈ candLoop sched now 0 7 :=
    List.mem_of_mem_head? (Option.mem_def.mpr (next_class_some_head hg h))
  rw [candLoop_mem_iff_isCand] at hmem
  exact hmem

/-- C1: whenever `next_class(group, now)` returns a pair `(when, entry)`,
`when` is strictly after `now` (a slot starting exactly at `now` is
excluded); rerunning `next_class` with the returned time as the new `now`
again moves strictly forward, so the same (day, slot) occurrence — which
is determined by the returned start instant — is never returned twice. -/
theorem claim_C1_next_class_forward :
    ∀ (g : String) (now t : DateTime) (e : ClassEntry),
      next_class g now = some (t, e) →
        DateTime.lt now t ∧
          ∀ (t2 : DateTime) (e2 : ClassEntry),
            next_class g t = some (t2, e2) →
              DateTime.lt t t2 ∧ ¬(t2.day = t.day ∧ t2.tod = t.tod) := by
  intro g now t e h
  refine ⟨next_class_gt h, ?_⟩
  intro t2 e2 h2
  have hlt := next_class_gt h2
  refine ⟨hlt, ?_⟩
  rintro ⟨hd, htod⟩
  unfold DateTime.lt at hlt
  omega

/-- Witness for C1 at Monday midnight: the first Monday class is found,
and the follow-up query moves strictly past it. -/
theorem claim_C1_next_class_forward_witness :
    DateTime.lt ⟨0, 0⟩ ⟨0, 570⟩ ∧
      ∀ (t2 : DateTime) (e2 : ClassEntry),
        next_class "Group-7" ⟨0, 570⟩ = some (t2, e2) →
          DateTime.lt ⟨0, 570⟩ t2 ∧ ¬(t2.day = 0 ∧ t2.tod = 570) :=
  claim_C1_next_class_forward "Group-7" ⟨0, 0⟩ ⟨0, 570⟩ (CE "DMDW" "BS-102")
    (by decide)

/-- C2: for a known group, `next_class` returns none exactly when no slot
in the 7-day scan window (`dshift < 7`, today included) holds a class
whose start qualifies — so an empty week is detected after scanning
exactly 7 days — and any returned pair is a qualifying slot occurrence
whose start instant is earliest among all qualifying ones (slots being
scanned in ascending (day, slot-index) order). -/
theorem claim_C2_next_class_earliest :
    ∀ (g : String) (sched : Fin 7 → List (Option ClassEntry)) (now : DateTime),
      SUPPORTED_GROUPS g = some sched →
        (next_class g now = none ↔
          ∀ d i (e : ClassEntry), ¬ IsCand sched now d i e) ∧
        ∀ (t : DateTime) (e : ClassEntry),
          next_class g now = some (t, e) →
            (∃ d i, IsCand sched now d i e ∧ t = startOf now d i) ∧
              ∀ d i (e2 : ClassEntry), IsCand sched now d i e2 →
                DateTime.le t (startOf now d i) := by
  intro g sched now hg
  refine ⟨next_class_none_iff hg, ?_⟩
  intro t e h
  exact ⟨next_class_some_isCand hg h, next_class_min hg h⟩

/-- Witness for C2 at Saturday midnight: the scan wraps the empty
weekend and finds Monday's first class, earliest among candidates. -/
theorem claim_C2_next_class_earliest_witness :
    (next_class "Group-7" ⟨5, 0⟩ = none ↔
      ∀ d i (e : ClassEntry), ¬ IsCand SCHEDULE ⟨5, 0⟩ d i e) ∧
    ∀ (t : DateTime) (e : ClassEntry),
      next_class "Group-7" ⟨5, 0⟩ = some (t, e) →
        (∃ d i, IsCand SCHEDULE ⟨5, 0⟩ d i e ∧ t = startOf ⟨5, 0⟩ d i) ∧
          ∀ d i (e2 : ClassEntry), IsCand SCHEDULE ⟨5, 0⟩ d i e2 →
            DateTime.le t (startOf ⟨5, 0⟩ d i) :=
  claim_C2_next_class_earliest "Group-7" SCHEDULE ⟨5, 0⟩ rfl

/-- C9: with the shipped Group-7 schedule, `next_class` always returns a
result, at every instant of every day — Monday through Friday are fully
occupied, so the 7-day scan from any starting point reaches a qualifying
slot.  Consequently the unchecked tuple unpacking of `next_class`'s
result in the before-first-slot branch of `where_is_class` never fails. -/
theorem claim_C9_next_class_group7_total :
    ∀ now : DateTime, (next_class "Group-7" now).isSome = true := by
  intro now
  cases h : next_class "Group-7" now with
  | some r => rfl
  | none =>
    exfalso
    have hg : SUPPORTED_GROUPS "Group-7" = some SCHEDULE := rfl
    have hnone := (next_class_none_iff hg).1 h
    have hwd : now.day % 7 < 7 := Nat.mod_lt _ (by decide)
    have key : ∀ (d v : Nat) (e : ClassEntry), d < 7 → d ≠ 0 →
        (now.day + d) % 7 = v →
        (SCHEDULE_DAYS.getD v []).getD 0 none = some e → False := by
      intro d v e hd hd0 hv hlookup
      refine hnone d 0 e ⟨hd, by omega, ?_, fun hh => absurd hh hd0⟩
      simpa [SCHEDULE, weekdayOf, hv] using hlookup
    rcases hcase : now.day % 7 with _ | _ | _ | _ | _ | _ | w
    · exact key 1 1 (CE "OS" "BS-104") (by omega) (by omega) (by omega) (by decide)
    · exact key 1 2 (CE "SDE" "Chutti") (by omega) (by omega) (by omega) (by decide)
    · exact key 1 3 (CE "WT" "Oracle Lab") (by omega) (by omega) (by omega) (by decide)
    · exact key 1 4 (CE "DMDW" "CS-201") (by omega) (by omega) (by omega) (by decide)
    · exact key 3 0 (CE "DMDW" "BS-102") (by omega) (by omega) (by omega) (by decide)
    · exact key 2 0 (CE "DMDW" "BS-102") (by omega) (by omega) (by omega) (by decide)
    · rcases w with _ | w2
      · exact key 1 0 (CE "DMDW" "BS-102") (by omega) (by omega) (by omega) (by decide)
      · omega

theorem slot_index_eval (d t : Nat) :
    slot_index_for ⟨d, t⟩ =
      if 570 ≤ t ∧ t < 630 then some 0
      else if 630 ≤ t ∧ t < 690 then some 1
      else if 690 ≤ t ∧ t < 750 then some 2
      else if 750 ≤ t ∧ t < 810 then some 3
      else if 870 ≤ t ∧ t < 930 then some 4
      else if 930 ≤ t ∧ t < 990 then some 5
      else if 990 ≤ t ∧ t < 1050 then some 6
      else none := by
  simp only [slot_index_for, SLOTS, slotScan]

set_option maxHeartbeats 1600000 in
theorem slot_index_some_iff (d t i : Nat) :
    slot_index_for ⟨d, t⟩ = some i ↔
      i < 7 ∧ (SLOTS.getD i (0, 0)).1 ≤ t ∧ t < (SLOTS.getD i (0, 0)).2 := by
  have hlt7 : slot_index_for ⟨d, t⟩ = some i → i < 7 := by
    rw [slot_index_eval]
    split_ifs <;> intro h <;> simp_all <;> omega
  by_cases hi : i < 7
  · simp only [hi, true_and]
    clear hlt7
    interval_cases i <;>
      (rw [slot_index_eval];
       simp only [SLOTS, List.getD_cons_zero, List.getD_cons_succ];
       split_ifs <;> simp <;> omega)
  · constructor
    · intro h; exact absurd (hlt7 h) hi
    · rintro ⟨h7, _⟩; exact absurd h7 hi

theorem slot_index_none_iff (d t : Nat) :
    slot_index_for ⟨d, t⟩ = none ↔
      t < 570 ∨ (810 ≤ t ∧ t < 870) ∨ 1050 ≤ t := by
  rw [slot_index_eval]
  split_ifs <;> simp_all <;> omega

/-- C3: the slot clock is a pure total function on timestamps: it
returns `some i` exactly when the minute of day lies in slot `i`'s
half-open interval (start inclusive, end exclusive); it returns none
exactly off-slot — before 09:30 (570), inside the 13:30–14:30 (810–870)
lunch gap including 13:30 itself, or at/after 17:30 (1050); and no
timestamp lies in the intervals of two distinct slots. -/
theorem claim_C3_slot_clock :
    ∀ now : DateTime,
      (∀ i, slot_index_for now = some i ↔
          i < 7 ∧ (SLOTS.getD i (0, 0)).1 ≤ now.tod ∧
            now.tod < (SLOTS.getD i (0, 0)).2) ∧
      (slot_index_for now = none ↔
          now.tod < 570 ∨ (810 ≤ now.tod ∧ now.tod < 870) ∨ 1050 ≤ now.tod) ∧
      ∀ i j, i < 7 → j < 7 →
        (SLOTS.getD i (0, 0)).1 ≤ now.tod → now.tod < (SLOTS.getD i (0, 0)).2 →
        (SLOTS.getD j (0, 0)).1 ≤ now.tod → now.tod < (SLOTS.getD j (0, 0)).2 →
          i = j := by
  intro now
  obtain ⟨d, t⟩ := now
  refine ⟨fun i => slot_index_some_iff d t i, slot_index_none_iff d t, ?_⟩
  intro i j hi7 hj7 hi1 hi2 hj1 hj2
  have h1 : slot_index_for ⟨d, t⟩ = some i :=
    (slot_index_some_iff d t i).mpr ⟨hi7, hi1, hi2⟩
  have h2 : slot_index_for ⟨d, t⟩ = some j :=
    (slot_index_some_iff d t j).mpr ⟨hj7, hj1, hj2⟩
  rw [h1] at h2
  exact Option.some_injective _ h2

/-- Witness for C3 at 10:45 (the spec's own example): slot index 1. -/
theorem claim_C3_slot_clock_witness : slot_index_for ⟨0, 645⟩ = some 1 :=
  ((claim_C3_slot_clock ⟨0, 645⟩).1 1).mpr (by decide)

/-- C4: `current_class(group, now)` returns the entry occupying today's
(`now.day % 7`) slot at the slot clock's index, and returns none in
exactly three cases — the slot clock returns none (in particular during
the whole lunch interval), the occupying cell is empty, or the group is
not in the registry; an unknown group yields none, never an error. -/
theorem claim_C4_current_class :
    ∀ (g : String) (now : DateTime),
      (∀ i (sched : Fin 7 → List (Option ClassEntry)),
          slot_index_for now = some i → SUPPORTED_GROUPS g = some sched →
            current_class g now = (sched (weekdayOf now.day)).getD i none) ∧
      (current_class g now = none ↔
          slot_index_for now = none ∨ SUPPORTED_GROUPS g = none ∨
            ∃ i sched, slot_index_for now = some i ∧
              SUPPORTED_GROUPS g = some sched ∧
              (sched (weekdayOf now.day)).getD i none = none) ∧
      (SUPPORTED_GROUPS g = none → current_class g now = none) ∧
      (810 ≤ now.tod → now.tod < 870 → current_class g now = none) := by
  intro g now
  refine ⟨?_, ?_, ?_, ?_⟩
  · intro i sched hi hg
    simp [current_class, hi, hg]
  · cases hi : slot_index_for now with
    | none => simp [current_class, hi]
    | some i =>
      cases hg : SUPPORTED_GROUPS g with
      | none => simp [current_class, hi, hg]
      | some sched => simp [current_class, hi, hg]
  · intro hg
    cases hi : slot_index_for now with
    | none => simp [current_class, hi]
    | some i => simp [current_class, hi, hg]
  · intro h1 h2
    have hnone : slot_index_for now = none := by
      have := (slot_index_none_iff now.day now.tod).mpr (Or.inr (Or.inl ⟨h1, h2⟩))
      exact this
    simp [current_class, hnone]

/-- Witness for C4 at 14:00 during lunch: no current class. -/
theorem claim_C4_current_class_witness : current_class "Group-7" ⟨0, 840⟩ = none :=
  (claim_C4_current_class "Group-7" ⟨0, 840⟩).2.2.2 (by decide) (by decide)

theorem announceFanout_foldl (f : Nat → Bool) :
    ∀ (chats acc : List Nat) (n : Nat),
      List.foldl
          (fun acc c => (acc.1 ++ [c], if f c then acc.2 + 1 else acc.2))
          (acc, n) chats
        = (acc ++ chats, n + chats.countP f) := by
  intro chats
  induction chats with
  | nil => intro acc n; simp
  | cons c rest ih =>
    intro acc n
    simp only [List.foldl_cons]
    rw [ih]
    cases hc : f c <;> (simp [hc, List.countP_cons]; try omega)

theorem announceFanout_spec (chats : List Nat) (f : Nat → Bool) :
    announceFanout chats f = (chats, chats.countP f) := by
  unfold announceFanout
  rw [announceFanout_foldl]
  simp

theorem lookupAssoc_updateAssoc (k k2 : Nat) (v : String) :
    ∀ m : List (Nat × String),
      lookupAssoc (updateAssoc m k v) k2
        = if k = k2 then some v else lookupAssoc m k2 := by
  intro m
  induction m with
  | nil => simp [updateAssoc, lookupAssoc]
  | cons p rest ih =>
    obtain ⟨a, b⟩ := p
    simp only [updateAssoc]
    split
    case isTrue ha =>
      subst ha
      simp only [lookupAssoc]
      split_ifs <;> simp_all
    case isFalse ha =>
      simp only [lookupAssoc]
      rw [ih]
      split_ifs <;> simp_all

theorem subscribeLoop_eq_pure {g : String}
    {sched : Fin 7 → List (Option ClassEntry)}
    (hg : SUPPORTED_GROUPS g = some sched) (now : DateTime) (day : Fin 7) :
    ∀ (slots : List (Nat × Nat)) (i0 : Nat),
      subscribeLoop g now day slots i0
        = some (subscribePure sched now day slots i0) := by
  intro slots
  induction slots with
  | nil => intro i0; rfl
  | cons p rest ih =>
    intro i0
    obtain ⟨s, e2⟩ := p
    simp only [subscribeLoop, subscribePure, hg]
    split
    · exact ih (i0 + 1)
    · split
      · exact ih (i0 + 1)
      · rw [ih (i0 + 1)]
        split <;> rfl

theorem subscribePure_mem (sched : Fin 7 → List (Option ClassEntry))
    (now : DateTime) (day : Fin 7) :
    ∀ (slots : List (Nat × Nat)) (i0 : Nat) (r : DateTime) (e : ClassEntry),
      (r, e) ∈ subscribePure sched now day slots i0 ↔
        ∃ j, j < slots.length ∧
          ¬ DateTime.le ⟨now.day, (slots.getD j (0, 0)).1⟩ now ∧
          (sched day).getD (i0 + j) none = some e ∧
          ¬ DateTime.le ⟨now.day, (slots.getD j (0, 0)).1 - 10⟩ now ∧
          r = ⟨now.day, (slots.getD j (0, 0)).1 - 10⟩ := by
  intro slots
  induction slots with
  | nil => intro i0 r e; simp [subscribePure]
  | cons p rest ih =>
    intro i0 r e
    obtain ⟨s, e2⟩ := p
    simp only [subscribePure]
    split
    case isTrue hskip =>
      rw [ih (i0 + 1) r e]
      constructor
      · rintro ⟨j, hj, h1, h2, h3, h4⟩
        refine ⟨j + 1, by simpa using Nat.succ_lt_succ hj, by simpa using h1,
          ?_, by simpa using h3, by simpa using h4⟩
        have harith : i0 + 1 + j = i0 + (j + 1) := by omega
        rw [← harith]; exact h2
      · rintro ⟨j, hj, h1, h2, h3, h4⟩
        cases j with
        | zero =>
          exfalso
          simp only [List.getD_cons_zero] at h1
          exact h1 hskip
        | succ j2 =>
          refine ⟨j2, by simpa using hj, by simpa using h1, ?_,
            by simpa using h3, by simpa using h4⟩
          have harith : i0 + 1 + j2 = i0 + (j2 + 1) := by omega
          rw [harith]; exact h2
    case isFalse hskip =>
      split
      case h_1 hcell =>
        rw [ih (i0 + 1) r e]
        constructor
        · rintro ⟨j, hj, h1, h2, h3, h4⟩
          refine ⟨j + 1, by simpa using Nat.succ_lt_succ hj, by simpa using h1,
            ?_, by simpa using h3, by simpa using h4⟩
          have harith : i0 + 1 + j = i0 + (j + 1) := by omega
          rw [← harith]; exact h2
        · rintro ⟨j, hj, h1, h2, h3, h4⟩
          cases j with
          | zero =>
            exfalso
            simp only [Nat.add_zero] at h2
            rw [hcell] at h2
            exact Option.noConfusion h2
          | succ j2 =>
            refine ⟨j2, by simpa using hj, by simpa using h1, ?_,
              by simpa using h3, by simpa using h4⟩
            have harith : i0 + 1 + j2 = i0 + (j2 + 1) := by omega
            rw [harith]; exact h2
      case h_2 entry hcell =>
        split
        case isTrue hrem =>
          rw [ih (i0 + 1) r e]
          constructor
          · rintro ⟨j, hj, h1, h2, h3, h4⟩
            refine ⟨j + 1, by simpa using Nat.succ_lt_succ hj, by simpa using h1,
              ?_, by simpa using h3, by simpa using h4⟩
            have harith : i0 + 1 + j = i0 + (j + 1) := by omega
            rw [← harith]; exact h2
          · rintro ⟨j, hj, h1, h2, h3, h4⟩
            cases j with
            | zero =>
              exfalso
              simp only [List.getD_cons_zero] at h3
              exact h3 hrem
            | succ j2 =>
              refine ⟨j2, by simpa using hj, by simpa using h1, ?_,
                by simpa using h3, by simpa using h4⟩
              have harith : i0 + 1 + j2 = i0 + (j2 + 1) := by omega
              rw [harith]; exact h2
        case isFalse hrem =>
          simp only [List.mem_cons, Prod.mk.injEq]
          rw [ih (i0 + 1) r e]
          constructor
          · rintro (⟨hr, he⟩ | ⟨j, hj, h1, h2, h3, h4⟩)
            · refine ⟨0, by simp, by simpa using hskip, ?_, by simpa using hrem,
                by simpa using hr⟩
              simpa [he] using hcell
            · refine ⟨j + 1, by simpa using Nat.succ_lt_succ hj,
                by simpa using h1, ?_, by simpa using h3, by simpa using h4⟩
              have harith : i0 + 1 + j = i0 + (j + 1) := by omega
              rw [← harith]; exact h2
          · rintro ⟨j, hj, h1, h2, h3, h4⟩
            cases j with
            | zero =>
              left
              simp only [Nat.add_zero] at h2
              rw [hcell] at h2
              simp only [List.getD_cons_zero] at h4
              exact ⟨h4, by simpa using (Option.some_injective _ h2).symm⟩
            | succ j2 =>
              right
              refine ⟨j2, by simpa using hj, by simpa using h1, ?_,
                by simpa using h3, by simpa using h4⟩
              have harith : i0 + 1 + j2 = i0 + (j2 + 1) := by omega
              rw [harith]; exact h2

/-- C5: for a registered group, `subscribe` schedules a one-shot
reminder for exactly those of today's 7 canonical slots whose weekday
entry is non-empty, whose start is strictly after `now`, and whose fire
time `start - 10 min` is strictly after `now`; each reminder fires at
that fire time, and the reply reports the job count, zero being the
distinct no-remaining-classes message rather than an error.
Concretely, at Monday 09:00 exactly one reminder targets slot 0, firing
at 09:20 (560); at Monday 09:25 no reminder fires at 09:20, i.e. none
is scheduled for slot 0. -/
theorem claim_C5_subscribe :
    (∀ (g : String) (sched : Fin 7 → List (Option ClassEntry)) (now : DateTime),
      SUPPORTED_GROUPS g = some sched →
        ∃ l, subscribe_sched g now = some l ∧
          subscribe_reply g now =
            some (if l.length = 0 then SubscribeReply.noRemaining
                  else SubscribeReply.subscribed l.length) ∧
          ∀ (r : DateTime) (e : ClassEntry),
            (r, e) ∈ l ↔ ∃ i, i < 7 ∧
              DateTime.lt now ⟨now.day, (SLOTS.getD i (0, 0)).1⟩ ∧
              (sched (weekdayOf now.day)).getD i none = some e ∧
              DateTime.lt now ⟨now.day, (SLOTS.getD i (0, 0)).1 - 10⟩ ∧
              r = ⟨now.day, (SLOTS.getD i (0, 0)).1 - 10⟩) ∧
    ((subscribe_sched "Group-7" ⟨0, 540⟩).getD []).count
        (⟨0, 560⟩, CE "DMDW" "BS-102") = 1 ∧
    (∀ p ∈ (subscribe_sched "Group-7" ⟨0, 565⟩).getD [],
        p.1 ≠ (⟨0, 560⟩ : DateTime)) := by
  refine ⟨?_, by decide, by decide⟩
  intro g sched now hg
  refine ⟨subscribePure sched now (weekdayOf now.day) SLOTS 0,
    subscribeLoop_eq_pure hg now _ SLOTS 0, ?_, ?_⟩
  · unfold subscribe_reply subscribe_sched
    rw [subscribeLoop_eq_pure hg now _ SLOTS 0]
  · intro r e
    rw [subscribePure_mem]
    constructor
    · rintro ⟨j, hj, h1, h2, h3, h4⟩
      exact ⟨j, by simpa [SLOTS] using hj, DateTime.not_le.mp h1,
        by simpa using h2, DateTime.not_le.mp h3, h4⟩
    · rintro ⟨i, hi, h1, h2, h3, h4⟩
      exact ⟨i, by simpa [SLOTS] using hi, DateTime.not_le.mpr h1,
        by simpa using h2, DateTime.not_le.mpr h3, h4⟩

/-- Witness for C5 for Group-7 at Monday 09:00. -/
theorem claim_C5_subscribe_witness :
    ∃ l, subscribe_sched "Group-7" ⟨0, 540⟩ = some l ∧
      subscribe_reply "Group-7" ⟨0, 540⟩ =
        some (if l.length = 0 then SubscribeReply.noRemaining
              else SubscribeReply.subscribed l.length) ∧
      ∀ (r : DateTime) (e : ClassEntry),
        (r, e) ∈ l ↔ ∃ i, i < 7 ∧
          DateTime.lt ⟨0, 540⟩ ⟨0, (SLOTS.getD i (0, 0)).1⟩ ∧
          (SCHEDULE (weekdayOf 0)).getD i none = some e ∧
          DateTime.lt ⟨0, 540⟩ ⟨0, (SLOTS.getD i (0, 0)).1 - 10⟩ ∧
          r = ⟨0, (SLOTS.getD i (0, 0)).1 - 10⟩ :=
  claim_C5_subscribe.1 "Group-7" SCHEDULE ⟨0, 540⟩ rfl

/-- C7 counterexample: `setgroup` with an unknown group does not leave
all core state unchanged — `_remember_chat` runs unconditionally before
validation, so a previously unknown chat id (42 here) is added to
`KNOWN_CHATS` even though the group "Nope" is rejected. -/
theorem claim_C7_counterexample :
    (setgroup 1 42 ["Nope"] ⟨[(1, "Group-7")], []⟩).1 ≠
      (⟨[(1, "Group-7")], []⟩ : BotState) := by decide

/-- C7 (amended): for every unknown group name, `setgroup` leaves the
`USER_GROUP` assignment map unchanged, replies with a rejection naming
the supported groups, and does not crash; the only state change is the
chat id being recorded in `KNOWN_CHATS`, which every handler performs
unconditionally before validation. -/
theorem claim_C7_setgroup_unknown :
    ∀ (uid chat : Nat) (args : List String) (st : BotState),
      args ≠ [] →
      SUPPORTED_GROUPS (String.intercalate " " args) = none →
        (setgroup uid chat args st).1.user_group = st.user_group ∧
        (setgroup uid chat args st).2 =
          SetgroupReply.unknownGroup (String.intercalate " " args)
            SUPPORTED_GROUPS_keys ∧
        (setgroup uid chat args st).1 = rememberChat chat st := by
  intro uid chat args st hne hg
  have hemp : args.isEmpty = false := by
    cases args
    · exact absurd rfl hne
    · rfl
  refine ⟨?_, ?_, ?_⟩ <;> simp [setgroup, hemp, hg, rememberChat]

/-- Witness for C7's amended statement at a concrete state. -/
theorem claim_C7_setgroup_unknown_witness :
    (setgroup 1 42 ["Nope"] ⟨[(1, "Group-7")], []⟩).1.user_group
        = [(1, "Group-7")] ∧
      (setgroup 1 42 ["Nope"] ⟨[(1, "Group-7")], []⟩).2 =
        SetgroupReply.unknownGroup (String.intercalate " " ["Nope"])
          SUPPORTED_GROUPS_keys ∧
      (setgroup 1 42 ["Nope"] ⟨[(1, "Group-7")], []⟩).1 =
        rememberChat 42 ⟨[(1, "Group-7")], []⟩ :=
  claim_C7_setgroup_unknown 1 42 ["Nope"] ⟨[(1, "Group-7")], []⟩
    (by decide) rfl

/-- C8: an admin broadcast attempts delivery to every known chat in
turn — a failed send is swallowed and counted as not sent, never
aborting the remaining fan-out and never escaping the loop — and the
final report counts exactly the successful sends: the number of known
chats minus the number of failures. -/
theorem claim_C8_announce :
    ∀ (uid chat : Nat) (args : List String) (sendOk : Nat → Bool)
      (st : BotState),
      uid ∈ ADMIN_IDS → args ≠ [] →
        announceFanout (rememberChat chat st).known_chats sendOk
            = ((rememberChat chat st).known_chats,
               (rememberChat chat st).known_chats.countP sendOk) ∧
        (announce uid chat args sendOk st).2 =
          AnnounceReply.sentReport
            ((rememberChat chat st).known_chats.countP sendOk) ∧
        (rememberChat chat st).known_chats.countP sendOk
          = (rememberChat chat st).known_chats.length
            - (rememberChat chat st).known_chats.countP (fun c => !(sendOk c)) := by
  intro uid chat args sendOk st hadm hne
  have hemp : args.isEmpty = false := by
    cases args
    · exact absurd rfl hne
    · rfl
  refine ⟨announceFanout_spec _ _, ?_, ?_⟩
  · simp [announce, hadm, hemp, announceFanout_spec]
  · have hlen := List.length_eq_countP_add_countP sendOk
      ((rememberChat chat st).known_chats)
    have hfun : (fun a => decide ¬(sendOk a = true)) = (fun c => !(sendOk c)) := by
      funext c
      cases sendOk c <;> simp
    rw [hfun] at hlen
    omega

/-- Witness for C8: four known chats after remembering, one failing
send, report of three. -/
theorem claim_C8_announce_witness :
    announceFanout (rememberChat 5 ⟨[], [1, 2, 3]⟩).known_chats
          (fun c => c != 3)
        = ((rememberChat 5 ⟨[], [1, 2, 3]⟩).known_chats,
           (rememberChat 5 ⟨[], [1, 2, 3]⟩).known_chats.countP
             (fun c => c != 3)) ∧
      (announce 1255061320 5 ["hi"] (fun c => c != 3) ⟨[], [1, 2, 3]⟩).2 =
        AnnounceReply.sentReport
          ((rememberChat 5 ⟨[], [1, 2, 3]⟩).known_chats.countP
            (fun c => c != 3)) ∧
      (rememberChat 5 ⟨[], [1, 2, 3]⟩).known_chats.countP (fun c => c != 3)
        = (rememberChat 5 ⟨[], [1, 2, 3]⟩).known_chats.length
          - (rememberChat 5 ⟨[], [1, 2, 3]⟩).known_chats.countP
              (fun c => !(c != 3)) :=
  claim_C8_announce 1255061320 5 ["hi"] (fun c => c != 3) ⟨[], [1, 2, 3]⟩
    (by decide) (by decide)

theorem start_user_group (uid chat : Nat) (st : BotState) :
    (start uid chat st).user_group = st.user_group ∨
    (start uid chat st).user_group = updateAssoc st.user_group uid "Group-7" := by
  simp only [start]
  split
  · right; rfl
  · left; rfl

theorem setgroup_user_group (uid chat : Nat) (args : List String)
    (st : BotState) :
    (setgroup uid chat args st).1.user_group = st.user_group ∨
    ∃ group, (SUPPORTED_GROUPS group).isSome = true ∧
      (setgroup uid chat args st).1.user_group
        = updateAssoc st.user_group uid group := by
  simp only [setgroup]
  split
  · left; rfl
  · split
    case isTrue h => left; rfl
    case isFalse h =>
      right
      refine ⟨String.intercalate " " args, ?_, rfl⟩
      cases hc : SUPPORTED_GROUPS (String.intercalate " " args) with
      | none => exact absurd (by rw [hc]; rfl) h
      | some sched => rfl

theorem groupInv_read (st : BotState) (uid : Nat) (h : GroupInv st) :
    (SUPPORTED_GROUPS ((lookupAssoc st.user_group uid).getD "Group-7")).isSome
      = true := by
  cases hl : lookupAssoc st.user_group uid with
  | none => rfl
  | some g => simpa using h uid g hl

theorem groupInv_update (st : BotState) (uid : Nat) (group : String)
    (hinv : GroupInv st) (hgrp : (SUPPORTED_GROUPS group).isSome = true) :
    ∀ uid2 g, lookupAssoc (updateAssoc st.user_group uid group) uid2 = some g →
      (SUPPORTED_GROUPS g).isSome = true := by
  intro uid2 g hlook
  rw [lookupAssoc_updateAssoc] at hlook
  by_cases he : uid = uid2
  · rw [if_pos he] at hlook
    obtain rfl : group = g := Option.some_injective _ hlook
    exact hgrp
  · rw [if_neg he] at hlook
    exact hinv uid2 g hlook

/-- C10: every value ever stored in `USER_GROUP` names a registered
group: the empty map satisfies the invariant; the only writers —
`start`, which writes the literal "Group-7", and `setgroup`, which
writes only after a membership check — preserve it; and under it every
defaulted read (missing users default to "Group-7") hands `subscribe`
and `day_schedule` a registered group, so their unchecked
`SUPPORTED_GROUPS[group]` indexing never takes the raising path. -/
theorem claim_C10_user_group_invariant :
    GroupInv ⟨[], []⟩ ∧
    (∀ uid chat st, GroupInv st → GroupInv (start uid chat st)) ∧
    (∀ uid chat args st, GroupInv st → GroupInv (setgroup uid chat args st).1) ∧
    (∀ st uid now, GroupInv st →
      (subscribe_sched ((lookupAssoc st.user_group uid).getD "Group-7")
        now).isSome = true) ∧
    (∀ st uid day, GroupInv st →
      (day_schedule_entries ((lookupAssoc st.user_group uid).getD "Group-7")
        day).isSome = true) := by
  refine ⟨?_, ?_, ?_, ?_, ?_⟩
  · intro uid g h
    simp [lookupAssoc] at h
  · intro uid chat st hinv uid2 g hlook
    rcases start_user_group uid chat st with hca | hca <;> rw [hca] at hlook
    · exact hinv uid2 g hlook
    · exact groupInv_update st uid "Group-7" hinv rfl uid2 g hlook
  · intro uid chat args st hinv uid2 g hlook
    rcases setgroup_user_group uid chat args st with hca | ⟨group, hgrp, hca⟩ <;>
      rw [hca] at hlook
    · exact hinv uid2 g hlook
    · exact groupInv_update st uid group hinv hgrp uid2 g hlook
  · intro st uid now hinv
    have h := groupInv_read st uid hinv
    rw [Option.isSome_iff_exists] at h
    obtain ⟨sched, hg⟩ := h
    unfold subscribe_sched
    rw [subscribeLoop_eq_pure hg]
    rfl
  · intro st uid day hinv
    have h := groupInv_read st uid hinv
    rw [Option.isSome_iff_exists] at h
    obtain ⟨sched, hg⟩ := h
    unfold day_schedule_entries
    rw [hg]
    rfl

/-- Witness for C10: the safe reads at a concrete state, with the
invariant instance supplied by the theorem's own first conjunct. -/
theorem claim_C10_user_group_invariant_witness :
    (subscribe_sched ((lookupAssoc ([] : List (Nat × String)) 1).getD "Group-7")
        ⟨0, 0⟩).isSome = true ∧
    GroupInv (start 7 42 ⟨[], []⟩) :=
  ⟨claim_C10_user_group_invariant.2.2.2.1 ⟨[], []⟩ 1 ⟨0, 0⟩
      claim_C10_user_group_invariant.1,
    claim_C10_user_group_invariant.2.1 7 42 ⟨[], []⟩
      claim_C10_user_group_invariant.1⟩

/-- C6: the shipped `SCHEDULE` satisfies the 7-slots-per-day shape and
all its days render cleanly; but nothing rejects a malformed table at
load time — module initialization is plain construction with no length
check — so a day truncated to 6 entries surfaces only as a per-request
IndexError inside the slot-rendering loop, not as a startup failure. -/
theorem claim_C6_schedule_shape :
    (∀ d : Fin 7, (SCHEDULE d).length = 7) ∧
    (∀ d : Fin 7, renderDay (SCHEDULE d) = Except.ok (SCHEDULE d)) ∧
    renderDay (MON.take 6) = Except.error "IndexError" := by
  exact ⟨by decide, by decide, by decide⟩
